import Mathlib

/-!
Verification of the zuno statement-extraction engine (`parser_logic.py`).

The code is shallowly embedded: strings are `List Char` wherever convenient,
Python's `Decimal` values (as they occur on the reachable code paths, where the
constructor argument consists of digits and dots only) are modelled by the
structure `Dec` (a sign, a coefficient and a decimal exponent), Python
exceptions are modelled by the `Except` monad with an explicit error type.

Modelling conventions, stated once:
* Character classes (`\d`, `\s`, `lower`, `upper`, `strip`) are modelled over
  ASCII; Python's versions coincide with these on ASCII text, and every claim
  and counterexample below lives in ASCII.
* Python floats are modelled as exact rationals (`float` conversion appears
  only where no claim depends on binary rounding).
-/

namespace Zuno

/-- Python whitespace for `str.strip` and the regex class `\s` (ASCII part). -/
def pyIsSpace (c : Char) : Bool :=
  c = ' ' || c = '\t' || c = '\n' || c = '\r' || c = '\x0b' || c = '\x0c'

/-- `str.strip()` : drop whitespace at both ends. -/
def stripL (s : List Char) : List Char :=
  ((s.dropWhile pyIsSpace).reverse.dropWhile pyIsSpace).reverse

/-- `str.lower()` (ASCII). -/
def lowerL (s : List Char) : List Char := s.map Char.toLower

/-- `str.upper()` (ASCII). -/
def upperL (s : List Char) : List Char := s.map Char.toUpper

/-- `pat` occurs somewhere in `s` - `pat in s` in Python. -/
def listPre : List Char → List Char → Bool
  | [], _ => true
  | _ :: _, [] => false
  | a :: as, b :: bs => a = b && listPre as bs

def containsL (pat : List Char) : List Char → Bool
  | [] => listPre pat []
  | c :: rest => listPre pat (c :: rest) || containsL pat rest

/-- `text.startswith('+')`. -/
def headIsPlus (s : List Char) : Bool :=
  match s with
  | '+' :: _ => true
  | _ => false

/-- `text.replace(",", "")` : remove every comma. -/
def pyRemoveCommas (s : List Char) : List Char := s.filter (fun c => c ≠ ',')

/-- The numeric value of a digit string, most significant digit first. -/
def natOfDigits (s : List Char) : Nat :=
  s.foldl (fun a c => 10 * a + (c.toNat - 48)) 0

/-- Python `Decimal` values as produced on the code paths under verification:
`(neg, coeff, exp)` denotes `(-1)^neg * coeff / 10^exp`, keeping the digits of
the source text exactly (so trailing zeros are represented, as in `Decimal`). -/
structure Dec where
  neg : Bool
  coeff : Nat
  exp : Nat
deriving Repr, DecidableEq

/-- The numeric value of a `Dec`. -/
def Dec.val (d : Dec) : ℚ :=
  (if d.neg then -(d.coeff : ℚ) else (d.coeff : ℚ)) / (10 : ℚ) ^ d.exp

/-- Python exceptions relevant to the embedded code. -/
inductive PyErr where
  | invalidOperation
  | valueError
  | attributeError
deriving Repr, DecidableEq

instance {ε α : Type _} [DecidableEq ε] [DecidableEq α] :
    DecidableEq (Except ε α) := fun x y =>
  match x, y with
  | Except.error a, Except.error b =>
    if h : a = b then isTrue (congrArg Except.error h)
    else isFalse (fun hh => h (Except.error.inj hh))
  | Except.ok a, Except.ok b =>
    if h : a = b then isTrue (congrArg Except.ok h)
    else isFalse (fun hh => h (Except.ok.inj hh))
  | Except.error _, Except.ok _ => isFalse (fun hh => Except.noConfusion hh)
  | Except.ok _, Except.error _ => isFalse (fun hh => Except.noConfusion hh)

/-- Restriction of Python's `Decimal` constructor to strings over digits and
`'.'` - the only strings the code ever passes to it (`cleaned_text` is built by
`re.sub(r"[^0-9.]", "", ...)`).  Such a string parses iff it has at most one
dot and at least one digit; the coefficient is the digit string and the
exponent the number of digits after the dot.  Other strings are rejected with
`InvalidOperation`, as the constructor raises. -/
def pyDecimal (s : List Char) : Except PyErr (Nat × Nat) :=
  if s.all (fun c => c.isDigit || c = '.') &&
     s.count '.' ≤ 1 && s.any Char.isDigit then
    Except.ok (natOfDigits (s.filter Char.isDigit),
               ((s.dropWhile (fun c => c ≠ '.')).drop 1).length)
  else
    Except.error PyErr.invalidOperation

/-- Body of the `try:` block of `_clean_amount` (lines 104-110). -/
def cleanAmountBody (isCredit : Bool) (cleaned : List Char) :
    Except PyErr (Option Dec) :=
  if cleaned = [] then Except.ok none
  else
    match pyDecimal cleaned with
    | Except.error e => Except.error e
    | Except.ok (c, e) => Except.ok (some ⟨isCredit, c, e⟩)

/-- The `except (InvalidOperation, ValueError)` handler of `_clean_amount`. -/
def pyCatchAmount (r : Except PyErr (Option Dec)) : Except PyErr (Option Dec) :=
  match r with
  | Except.error PyErr.invalidOperation => Except.ok none
  | Except.error PyErr.valueError => Except.ok none
  | r => r

/-- `_clean_amount` (parser_logic.py lines 84-113), with Python exceptions
explicit.  The argument is an optional string because callers pass possibly
absent table cells; `if not text` sends both `None` and `""` to `None`. -/
def cleanAmountEx (text : Option String) : Except PyErr (Option Dec) :=
  match text with
  | none => Except.ok none
  | some t =>
    if t.data = [] then Except.ok none
    else
      let t1 := pyRemoveCommas (stripL t.data)
      let isCredit := containsL ['c', 'r'] (lowerL t1) || headIsPlus t1
      let cleaned := t1.filter (fun c => c.isDigit || c = '.')
      pyCatchAmount (cleanAmountBody isCredit cleaned)

/-- `_clean_amount` as the total function it is proved to be (claim C9):
the exception-free projection of `cleanAmountEx`. -/
def cleanAmountPure (text : Option String) : Option Dec :=
  match cleanAmountEx text with
  | Except.ok r => r
  | Except.error _ => none

/-- The `is_credit` flag of `_clean_amount` (line 98), as the code computes it:
on the trimmed, comma-stripped text. -/
def codeIsCredit (s : String) : Bool :=
  let t1 := pyRemoveCommas (stripL s.data)
  containsL ['c', 'r'] (lowerL t1) || headIsPlus t1

example : cleanAmountPure (some "1,234.56") = some ⟨false, 123456, 2⟩ := by decide
example : cleanAmountPure (some "C3,00,000") = some ⟨false, 300000, 0⟩ := by decide
example : cleanAmountPure (some "1,234.56 Cr") = some ⟨true, 123456, 2⟩ := by decide
example : cleanAmountPure (some "+86,962.00") = some ⟨true, 8696200, 2⟩ := by decide
example : cleanAmountPure (some "abc") = none := by decide
example : cleanAmountPure (some "1.2.3") = none := by decide
example : cleanAmountPure (some "") = none := by decide
example : cleanAmountPure (some "c,r5") = some ⟨true, 5, 0⟩ := by decide
example : cleanAmountPure (some "-500") = some ⟨false, 500, 0⟩ := by decide

/-- `TX_DATE_RE.match(s)` : `re.match` anchors `^\d{2}/\d{2}/\d{4}` at the
start only, so this is a test on the first ten characters. -/
def txDatePre : List Char → Bool
  | a :: b :: c :: d :: e :: f :: g :: h :: i :: j :: _ =>
    a.isDigit && b.isDigit && c = '/' && d.isDigit && e.isDigit && f = '/' &&
    g.isDigit && h.isDigit && i.isDigit && j.isDigit
  | _ => false

/-- The strict date shape of the spec: the WHOLE string is `dd/dd/dddd`. -/
def txDateFull (s : List Char) : Bool := txDatePre s && s.length = 10

/-- `re.match(r"^[+-]\d+$", s)` : a mandatory sign then one or more digits. -/
def reSignedInt : List Char → Bool
  | c :: rest => (c = '+' || c = '-') && !rest.isEmpty && rest.all Char.isDigit
  | [] => false

/-- `re.match(r"^\d+\s+pts$", s, re.IGNORECASE)`.  The three classes (digit,
whitespace, letter) are disjoint, so greedy maximal munch is exact. -/
def rePts (s : List Char) : Bool :=
  let ds := s.takeWhile Char.isDigit
  let r1 := s.drop ds.length
  let ws := r1.takeWhile pyIsSpace
  !ds.isEmpty && !ws.isEmpty && lowerL (r1.drop ws.length) = ['p', 't', 's']

/-- `re.match(r"^(USD|EUR|GBP)\s+[\d\.]+$", s, re.IGNORECASE)`.  Again the
classes after the fixed-width alternation are disjoint, so maximal munch. -/
def reCurrency (s : List Char) : Bool :=
  match s with
  | a :: b :: c :: rest =>
    (lowerL [a, b, c] = ['u', 's', 'd'] || lowerL [a, b, c] = ['e', 'u', 'r'] ||
     lowerL [a, b, c] = ['g', 'b', 'p']) &&
    (let ws := rest.takeWhile pyIsSpace
     let num := rest.drop ws.length
     !ws.isEmpty && !num.isEmpty && num.all (fun ch => ch.isDigit || ch = '.'))
  | _ => false

/-- The junk-column filter of `_parse_transaction_row` (lines 166-170),
applied to an already stripped cell. -/
def isJunkCell (ps : List Char) : Bool :=
  upperL ps = ['E', 'M', 'I'] || upperL ps = ['E', 'M'] ||
  reSignedInt ps || rePts ps || reCurrency ps

/-- The middle-column loop of `_parse_transaction_row` (lines 156-173):
`None` and `""` cells are skipped before stripping, junk cells after. -/
def merchantParts : List (Option String) → List (List Char)
  | [] => []
  | c :: rest =>
    match c with
    | none => merchantParts rest
    | some s =>
      if s.data = [] then merchantParts rest
      else
        let ps := stripL s.data
        if isJunkCell ps then merchantParts rest
        else ps :: merchantParts rest

/-- `" ".join(parts)` : interleave single spaces. -/
def joinSp : List (List Char) → List Char
  | [] => []
  | x :: rest =>
    match rest with
    | [] => x
    | _ :: _ => x ++ ' ' :: joinSp rest

/-- A normalized transaction record (`models.Transaction`); the float amount
is carried as the cleaned `Decimal` itself (the `float` conversion keeps its
exact value in every scenario a claim mentions, and no claim inspects binary
rounding), so `Transaction.amount.val : ℚ` is the stored amount. -/
structure Transaction where
  date : String
  merchant : String
  amount : Dec
deriving Repr, DecidableEq

/-- `row[0].split('|')[0].strip()` (line 139). -/
def rowDateStr (s0 : String) : List Char :=
  stripL (s0.data.takeWhile (fun c => c ≠ '|'))

/-- The merchant string built at lines 156-175: junk-filtered middle cells
joined with single spaces, the join stripped. -/
def rowMerchant (row : List (Option String)) : List Char :=
  stripL (joinSp (merchantParts ((row.drop 1).dropLast)))

/-- `_parse_transaction_row` (lines 128-185), exceptions explicit: accessing
`row[0].split` when the first cell is `None` raises `AttributeError`; every
other path returns `None` (rejection) or a `Transaction`. -/
def parseTransactionRowEx (row : List (Option String)) :
    Except PyErr (Option Transaction) :=
  if row.length < 3 then Except.ok none
  else
    match row with
    | [] => Except.ok none
    | cell0 :: _ =>
      match cell0 with
      | none => Except.error PyErr.attributeError
      | some s0 =>
        if !txDatePre (rowDateStr s0) then Except.ok none
        else
          match cleanAmountPure (row.getLast?.getD none) with
          | none => Except.ok none
          | some amt =>
            if rowMerchant row = [] ||
               listPre ['t', 'o', 't', 'a', 'l'] (lowerL (rowMerchant row)) then
              Except.ok none
            else
              Except.ok (some ⟨String.mk (rowDateStr s0), String.mk (rowMerchant row), amt⟩)

/-- The truthy filter `filter(None, header)` of `_is_transaction_table`:
keeps cells that are neither `None` nor `""`. -/
def truthyCells (header : List (Option String)) : List (List Char) :=
  header.filterMap (fun o =>
    match o with
    | none => none
    | some s => match s.data with | [] => none | l => some l)

/-- `_is_transaction_table` (lines 116-125). -/
def isTransactionTable (header : List (Option String)) : Bool :=
  match header with
  | [] => false
  | _ :: _ =>
    let txt := lowerL (joinSp (truthyCells header))
    containsL ['d', 'a', 't', 'e'] txt &&
    containsL ['t', 'r', 'a', 'n', 's', 'a', 'c', 't', 'i', 'o', 'n'] txt &&
    containsL ['a', 'm', 'o', 'u', 'n', 't'] txt

/-- The row loop of `parse_statement` over one classified table's non-header
rows (lines 251-254): a raised exception propagates (and is turned into a
`ParsingError` by the handler at lines 310-312). -/
def parseRowsEx : List (List (Option String)) → Except PyErr (List Transaction)
  | [] => Except.ok []
  | r :: rest =>
    match parseTransactionRowEx r with
    | Except.error e => Except.error e
    | Except.ok none => parseRowsEx rest
    | Except.ok (some tx) =>
      match parseRowsEx rest with
      | Except.error e => Except.error e
      | Except.ok txs => Except.ok (tx :: txs)

/-- The table loop of `parse_statement` (lines 243-254): skip empty tables,
classify by the first row, normalize the remaining rows of ledger tables. -/
def parseTablesEx :
    List (List (List (Option String))) → Except PyErr (List Transaction)
  | [] => Except.ok []
  | t :: rest =>
    match t with
    | [] => parseTablesEx rest
    | header :: rows =>
      if isTransactionTable header then
        match parseRowsEx rows with
        | Except.error e => Except.error e
        | Except.ok txs =>
          match parseTablesEx rest with
          | Except.error e => Except.error e
          | Except.ok txs2 => Except.ok (txs ++ txs2)
      else parseTablesEx rest

example :
    parseTransactionRowEx [some "08/10/2025", some "AMAZON PAY", some "1,234.56"] =
      Except.ok (some ⟨"08/10/2025", "AMAZON PAY", ⟨false, 123456, 2⟩⟩) := by decide
example :
    parseTransactionRowEx
        [some "10/10/2025", some "STARBUCKS", some "EMI", some "USD 4.50",
         some "450 pts", some "C500.00"] =
      Except.ok (some ⟨"10/10/2025", "STARBUCKS", ⟨false, 50000, 2⟩⟩) := by decide
example :
    parseTransactionRowEx [none, some "X", some "100"] =
      Except.error PyErr.attributeError := by decide
example :
    parseTransactionRowEx [some "01/01/2025", some "A", some " ", some "B", some "100"] =
      Except.ok (some ⟨"01/01/2025", "A  B", ⟨false, 100, 0⟩⟩) := by decide
example :
    parseTransactionRowEx [some "01/01/2025x", some "SHOP", some "100"] =
      Except.ok (some ⟨"01/01/2025x", "SHOP", ⟨false, 100, 0⟩⟩) := by decide
example : isTransactionTable [some "Date", some "Transaction Details", some "Amount"] = true := by
  decide
example : isTransactionTable [some "S.No", some "Description"] = false := by decide

/-- Decimal digits of a natural number, most significant first (`['0']` for
zero), via a structurally decreasing fuel argument. -/
def natToDigitsFuel : Nat → Nat → List Char
  | 0, _ => []
  | fuel + 1, n =>
    if n < 10 then [Nat.digitChar n]
    else natToDigitsFuel fuel (n / 10) ++ [Nat.digitChar (n % 10)]

def natToDigits (n : Nat) : List Char := natToDigitsFuel (n + 1) n

/-- The ten decimal digit characters (for membership reasoning). -/
def digitChars : List Char :=
  ['0', '1', '2', '3', '4', '5', '6', '7', '8', '9']

/-- The digit string of a `Dec`, left-padded with zeros so that a decimal
point can be placed `exp` digits from the right. -/
def decDigits (d : Dec) : List Char :=
  let ds := natToDigits d.coeff
  List.replicate (d.exp + 1 - ds.length) '0' ++ ds

/-- The unsigned part of a `Dec`'s decimal rendering: the digits, with a
point placed `exp` digits from the right when the exponent is nonzero. -/
def decCore (d : Dec) : List Char :=
  if d.exp = 0 then decDigits d
  else
    (decDigits d).take ((decDigits d).length - d.exp) ++
      '.' :: (decDigits d).drop ((decDigits d).length - d.exp)

/-- The plain (fixed-point) decimal string form of a `Dec`: an optional minus
sign, the integer digits, and - when the exponent is nonzero - a point
followed by exactly `exp` fractional digits.  This is `str(Decimal)` except
that Python switches to scientific notation when the adjusted exponent drops
below -6; the spec speaks of "the decimal string form", which is this
fixed-point rendering. -/
def decToString (d : Dec) : String :=
  String.mk ((if d.neg then ['-'] else []) ++ decCore d)

example : decToString ⟨false, 123456, 2⟩ = "1234.56" := by decide
example : decToString ⟨true, 8696200, 2⟩ = "-86962.00" := by decide
example : decToString ⟨false, 0, 0⟩ = "0" := by decide
example : decToString ⟨true, 5, 7⟩ = "-0.0000005" := by decide
example : decToString ⟨false, 5, 1⟩ = "0.5" := by decide

/-- The first literal of both credit-limit patterns. -/
def litTCL : List Char := ("TOTAL CREDIT LIMIT\n").data

/-- The group `([\d,]+\.?\d*)` matched greedily at the current position (its
tail is all-optional, so no backtracking can arise). -/
def captureNum (s : List Char) : Option (List Char) :=
  let ds := s.takeWhile (fun c => c.isDigit || c = ',')
  if ds = [] then none
  else
    match s.drop ds.length with
    | '.' :: r2 => some (ds ++ '.' :: r2.takeWhile Char.isDigit)
    | _ => some ds

/-- `\s*C?([\d,]+\.?\d*)` of `TOTAL_LIMIT_RE_A`.  `\s*` must end at the first
non-whitespace character (shorter tries leave a whitespace character for
`C?`/`[\d,]`, which both refuse); if the optional `C` is consumed and the
group then fails, re-trying without the `C` fails too since `C` is not in
`[\d,]` - so plain maximal munch is the regex's exact behavior. -/
def captureAmountA (s : List Char) : Option (List Char) :=
  let s1 := s.dropWhile pyIsSpace
  match s1 with
  | 'C' :: r => captureNum r
  | _ => captureNum s1

/-- `.*\n` : `.` cannot cross a newline, so this consumes exactly through the
first newline, and fails when there is none. -/
def skipLine (s : List Char) : Option (List Char) :=
  match s.dropWhile (fun c => c ≠ '\n') with
  | '\n' :: t => some t
  | _ => none

/-- The part of `TOTAL_LIMIT_RE_A` after its first literal:
`\s*\(Including Cash\).*AVAILABLE CREDIT LIMIT.*\n` then the amount group.
The middle line matches iff, after skipping whitespace and the literal
`(Including Cash)`, the remainder of that line contains
`AVAILABLE CREDIT LIMIT`; both `.*` stay on one line and the trailing `\n`
pins the match to the line end, so which occurrence is chosen is immaterial. -/
def matchATail (s : List Char) : Option (List Char) :=
  let s1 := s.dropWhile pyIsSpace
  if listPre ("(Including Cash)").data s1 then
    let s2 := s1.drop ("(Including Cash)").data.length
    if containsL ("AVAILABLE CREDIT LIMIT").data (s2.takeWhile (fun c => c ≠ '\n')) then
      match skipLine s2 with
      | some s3 => captureAmountA s3
      | none => none
    else none
  else none

/-- The part of `TOTAL_LIMIT_RE_B` after its first literal:
`(?:.*\n){1,2}\s*([\d,]+\.?\d*)` - the greedy counted repetition tries two
skipped lines first, then backtracks to one. -/
def matchBTail (s : List Char) : Option (List Char) :=
  match skipLine s with
  | none => none
  | some s1 =>
    match skipLine s1 with
    | some s2 =>
      match captureNum (s2.dropWhile pyIsSpace) with
      | some cap => some cap
      | none => captureNum (s1.dropWhile pyIsSpace)
    | none => captureNum (s1.dropWhile pyIsSpace)

/-- `TOTAL_LIMIT_RE_A.search` : leftmost position where the whole pattern
matches; the captured group is returned. -/
def searchA : List Char → Option (List Char)
  | [] => none
  | s@(_ :: rest) =>
    match (if listPre litTCL s then matchATail (s.drop litTCL.length) else none) with
    | some cap => some cap
    | none => searchA rest

/-- `TOTAL_LIMIT_RE_B.search`. -/
def searchB : List Char → Option (List Char)
  | [] => none
  | s@(_ :: rest) =>
    match (if listPre litTCL s then matchBTail (s.drop litTCL.length) else none) with
    | some cap => some cap
    | none => searchB rest

/-- Lines 287-291: `if limit_str:` treats an empty capture like absence
(falsy string); otherwise the captured string goes through `_clean_amount`
and the absolute value is kept. -/
def limitFromCapture (cap : List Char) : Option ℚ :=
  if cap = [] then none
  else
    match cleanAmountPure (some (String.mk cap)) with
    | none => none
    | some d => some |d.val|

/-- The credit-limit logic of `parse_statement` (lines 279-293): pattern A
first, pattern B only if A found nothing, then `limitFromCapture`. -/
def extractTotalLimit (text : List Char) : Option ℚ :=
  match (match searchA text with | some s => some s | none => searchB text) with
  | none => none
  | some cap => limitFromCapture cap

example :
    searchA ("TOTAL CREDIT LIMIT\n(Including Cash) AVAILABLE CREDIT LIMIT\nC3,00,000").data
      = some ("3,00,000").data := by decide
example :
    searchB ("TOTAL CREDIT LIMIT\nAVAILABLE CREDIT LIMIT\n(Including Cash)\n  4,50,000").data
      = some ("4,50,000").data := by decide
example : searchA ("no limits here").data = none := by decide

/-! ## Claim-side definitions

The following definitions follow the WORDS of the spec/claims (not the code);
they exist to be compared against the code-derived definitions above. -/

/-- Claim C1's credit indicator, as the claim states it: the raw input
contains the case-insensitive substring `cr`, or starts with `+` after
trimming. -/
def claimCreditIndicator (s : String) : Bool :=
  containsL ['c', 'r'] (lowerL s.data) || headIsPlus (stripL s.data)

/-- Claim C6's classifier: concatenate all non-absent header cells with a
separator, case-fold, and require the three keyword substrings. -/
def presentCells (header : List (Option String)) : List (List Char) :=
  header.filterMap (fun o => Option.map String.data o)

def claimLedgerHeader (header : List (Option String)) : Bool :=
  let txt := lowerL (joinSp (presentCells header))
  containsL ['d', 'a', 't', 'e'] txt &&
  containsL ['t', 'r', 'a', 'n', 's', 'a', 'c', 't', 'i', 'o', 'n'] txt &&
  containsL ['a', 'm', 'o', 'u', 'n', 't'] txt

/-- Claim C5's junk test, as the claim states it: a "3-letter currency code"
is three letters (so e.g. `JPY` qualifies), and a "decimal number" is digits
with at most one point. -/
def claimCurrencyCell (ps : List Char) : Bool :=
  match ps with
  | a :: b :: c :: rest =>
    a.isAlpha && b.isAlpha && c.isAlpha &&
    (let ws := rest.takeWhile pyIsSpace
     let num := rest.drop ws.length
     !ws.isEmpty && !num.isEmpty &&
     num.all (fun ch => ch.isDigit || ch = '.') && num.count '.' ≤ 1)
  | _ => false

def claimJunkCell (ps : List Char) : Bool :=
  upperL ps = ['E', 'M', 'I'] || upperL ps = ['E', 'M'] ||
  reSignedInt ps || rePts ps || claimCurrencyCell ps

/-- Claim C5's merchant, as the claim states it: a middle cell is excluded
exactly when, after trimming, it is empty or junk; the remaining trimmed
cells are joined with single spaces. -/
def claimMerchantText (row : List (Option String)) : List Char :=
  joinSp (((row.drop 1).dropLast).filterMap (fun c =>
    match c with
    | none => none
    | some s =>
      let ps := stripL s.data
      if ps = [] then none
      else if claimJunkCell ps then none
      else some ps))

/-- The merchant string the code actually builds (claim C5 as amended):
cells that are absent or the empty string are dropped before trimming, a
whitespace-only cell survives the junk filter as the empty string, the
trimmed cells are joined with single spaces, and the join is trimmed. -/
def specMerchantText (row : List (Option String)) : List Char :=
  stripL (joinSp (((row.drop 1).dropLast).filterMap (fun c =>
    match c with
    | none => none
    | some s =>
      if s.data = [] then none
      else if isJunkCell (stripL s.data) then none
      else some (stripL s.data))))

/-- Claim C4's rejection condition, as the claim states it - in particular
"fails the strict date pattern" is the full-string date shape. -/
def claimRowRejected (row : List (Option String)) : Bool :=
  decide (row.length < 3) ||
  (match (row.head?).getD none with
   | none => true
   | some s => !txDateFull (rowDateStr s)) ||
  (cleanAmountPure ((row.getLast?).getD none)).isNone ||
  (let m := specMerchantText row
   m.isEmpty || listPre ['t', 'o', 't', 'a', 'l'] (lowerL m))

/-- Claim C4 as amended: identical, except that the date cell is only
required to START with the `dd/dd/dddd` shape, as `re.match` checks. -/
def specRowRejected (row : List (Option String)) : Bool :=
  decide (row.length < 3) ||
  (match (row.head?).getD none with
   | none => true
   | some s => !txDatePre (rowDateStr s)) ||
  (cleanAmountPure ((row.getLast?).getD none)).isNone ||
  (let m := specMerchantText row
   m.isEmpty || listPre ['t', 'o', 't', 'a', 'l'] (lowerL m))

/-! ## Sign facts about `Dec.val` -/

lemma ten_pow_pos (e : Nat) : (0 : ℚ) < 10 ^ e := by positivity

lemma Dec.val_false (c e : Nat) :
    Dec.val ⟨false, c, e⟩ = (c : ℚ) / (10 : ℚ) ^ e := by
  simp [Dec.val]

lemma Dec.val_true (c e : Nat) :
    Dec.val ⟨true, c, e⟩ = -((c : ℚ) / (10 : ℚ) ^ e) := by
  simp [Dec.val, neg_div]

lemma Dec.quot_nonneg (c e : Nat) : 0 ≤ (c : ℚ) / (10 : ℚ) ^ e :=
  div_nonneg (Nat.cast_nonneg c) (ten_pow_pos e).le

lemma Dec.quot_pos_iff (c e : Nat) : 0 < (c : ℚ) / (10 : ℚ) ^ e ↔ c ≠ 0 := by
  have hp := ten_pow_pos e
  rw [div_pos_iff]
  simp [hp, hp.not_lt, Nat.pos_iff_ne_zero]

lemma Dec.val_nonneg {d : Dec} (h : d.neg = false) : 0 ≤ d.val := by
  rcases d with ⟨b, c, e⟩
  cases h
  rw [Dec.val_false]
  exact Dec.quot_nonneg c e

lemma Dec.val_nonpos {d : Dec} (h : d.neg = true) : d.val ≤ 0 := by
  rcases d with ⟨b, c, e⟩
  cases h
  rw [Dec.val_true]
  exact neg_nonpos.mpr (Dec.quot_nonneg c e)

lemma Dec.val_pos_iff {d : Dec} : 0 < d.val ↔ (d.neg = false ∧ d.coeff ≠ 0) := by
  rcases d with ⟨b, c, e⟩
  cases b with
  | false => simpa [Dec.val_false] using (Dec.quot_pos_iff c e)
  | true =>
    rw [Dec.val_true]
    constructor
    · intro hpos
      exact absurd hpos (not_lt.mpr (neg_nonpos.mpr (Dec.quot_nonneg c e)))
    · rintro ⟨h, -⟩
      exact absurd h (by simp)

lemma Dec.val_neg_iff {d : Dec} : d.val < 0 ↔ (d.neg = true ∧ d.coeff ≠ 0) := by
  rcases d with ⟨b, c, e⟩
  cases b with
  | true =>
    rw [Dec.val_true, neg_lt_zero]
    simpa using (Dec.quot_pos_iff c e)
  | false =>
    rw [Dec.val_false]
    constructor
    · intro hneg
      exact absurd hneg (not_lt.mpr (Dec.quot_nonneg c e))
    · rintro ⟨h, -⟩
      exact absurd h (by simp)

lemma Dec.val_abs (d : Dec) : |d.val| = (d.coeff : ℚ) / (10 : ℚ) ^ d.exp := by
  rcases d with ⟨b, c, e⟩
  cases b with
  | false => rw [Dec.val_false]; exact abs_of_nonneg (Dec.quot_nonneg c e)
  | true =>
    rw [Dec.val_true, abs_neg]
    exact abs_of_nonneg (Dec.quot_nonneg c e)

/-! ## `_clean_amount` never raises, and its sign is exactly `is_credit` -/

lemma pyDecimal_error {cl : List Char} {e : PyErr}
    (h : pyDecimal cl = Except.error e) : e = PyErr.invalidOperation := by
  unfold pyDecimal at h
  split at h
  · exact absurd h (by simp)
  · exact (Except.error.inj h).symm

lemma cleanAmount_catch_ok (b : Bool) (cl : List Char) :
    ∃ r, pyCatchAmount (cleanAmountBody b cl) = Except.ok r := by
  by_cases hc : cl = []
  · exact ⟨none, by simp [cleanAmountBody, hc, pyCatchAmount]⟩
  · cases hd : pyDecimal cl with
    | error e =>
      cases pyDecimal_error hd
      exact ⟨none, by simp [cleanAmountBody, hc, hd, pyCatchAmount]⟩
    | ok p =>
      obtain ⟨c1, e1⟩ := p
      exact ⟨some ⟨b, c1, e1⟩, by simp [cleanAmountBody, hc, hd, pyCatchAmount]⟩

lemma cleanAmountEx_some (s : String) :
    cleanAmountEx (some s) =
      if s.data = [] then Except.ok none
      else
        let t1 := pyRemoveCommas (stripL s.data)
        let isCredit := containsL ['c', 'r'] (lowerL t1) || headIsPlus t1
        let cleaned := t1.filter (fun c => c.isDigit || c = '.')
        pyCatchAmount (cleanAmountBody isCredit cleaned) := rfl

lemma cleanAmountEx_eq_pure (t : Option String) :
    cleanAmountEx t = Except.ok (cleanAmountPure t) := by
  have h : ∃ r, cleanAmountEx t = Except.ok r := by
    cases t with
    | none => exact ⟨none, rfl⟩
    | some s =>
      rw [cleanAmountEx_some]
      by_cases h0 : s.data = []
      · exact ⟨none, by rw [if_pos h0]⟩
      · rw [if_neg h0]
        exact cleanAmount_catch_ok _ _
  obtain ⟨r, hr⟩ := h
  rw [hr]
  unfold cleanAmountPure
  rw [hr]

lemma catch_body_some {b : Bool} {cl : List Char} {d : Dec}
    (h : pyCatchAmount (cleanAmountBody b cl) = Except.ok (some d)) :
    d.neg = b := by
  by_cases hc : cl = []
  · simp [cleanAmountBody, hc, pyCatchAmount] at h
  · cases hd : pyDecimal cl with
    | error e =>
      cases pyDecimal_error hd
      simp [cleanAmountBody, hc, hd, pyCatchAmount] at h
    | ok p =>
      obtain ⟨c1, e1⟩ := p
      simp [cleanAmountBody, hc, hd, pyCatchAmount] at h
      cases h
      rfl

lemma cleanAmountPure_neg {s : String} {d : Dec}
    (h : cleanAmountPure (some s) = some d) : d.neg = codeIsCredit s := by
  have hex := cleanAmountEx_eq_pure (some s)
  rw [h, cleanAmountEx_some] at hex
  by_cases h0 : s.data = []
  · rw [if_pos h0] at hex
    exact absurd (Except.ok.inj hex) (by simp)
  · rw [if_neg h0] at hex
    exact catch_body_some hex

/-! ## Claim C9 -/

/-- Claim C9: `_clean_amount` is total - for every input string it returns a
signed decimal or an absence signal, never an exception (the only raising
spot, the `Decimal` constructor, raises `InvalidOperation` on bad input such
as `"1.2.3"`, and that is exactly what the handler catches). -/
theorem claim_C9 (s : String) :
    cleanAmountEx (some s) = Except.ok (cleanAmountPure (some s)) :=
  cleanAmountEx_eq_pure (some s)

/-! ## Claim C7 -/

/-- Claim C7 is a code bug: a `RawRow` whose first cell is absent makes
`_parse_transaction_row` evaluate `None.split`, raising `AttributeError`
instead of rejecting silently, and the row loop of `parse_statement`
propagates it (the `except` at lines 310-312 then aborts the whole parse as
a `ParsingError`), contradicting the spec's local-recovery rule. -/
theorem claim_C7 :
    parseTransactionRowEx [none, some "X", some "100"] =
      Except.error PyErr.attributeError ∧
    parseTablesEx [[[some "Date", some "Transaction", some "Amount"],
                    [none, some "X", some "100"]]] =
      Except.error PyErr.attributeError :=
  ⟨by decide, by decide⟩

/-! ## Claim C1 -/

/-- Claim C1 is false as stated: `"c,r5"` has no case-insensitive `cr`
substring and no leading `+`, yet normalizes to a negative value, because
the code removes commas before looking for `cr`. -/
theorem claim_C1_counterexample :
    cleanAmountPure (some "c,r5") = some ⟨true, 5, 0⟩ ∧
    claimCreditIndicator "c,r5" = false ∧
    Dec.val ⟨true, 5, 0⟩ < 0 := by
  refine ⟨by decide, by decide, ?_⟩
  rw [Dec.val_true]
  norm_num

/-- Claim C1 (amended): with the credit indicator evaluated the way the code
does - on the trimmed, comma-stripped input - an indicated input never
normalizes to a positive value and a non-indicated input never to a negative
one; the result is strictly negative (resp. positive) exactly when the
indicator holds (resp. fails) and the parsed digits are not all zero. -/
theorem claim_C1_amended (s : String) (d : Dec)
    (h : cleanAmountPure (some s) = some d) :
    (codeIsCredit s = true → d.val ≤ 0) ∧
    (codeIsCredit s = false → 0 ≤ d.val) ∧
    (d.val < 0 ↔ (codeIsCredit s = true ∧ d.coeff ≠ 0)) ∧
    (0 < d.val ↔ (codeIsCredit s = false ∧ d.coeff ≠ 0)) := by
  have hneg := cleanAmountPure_neg h
  refine ⟨?_, ?_, ?_, ?_⟩
  · intro hc
    exact Dec.val_nonpos (hneg.trans hc)
  · intro hc
    exact Dec.val_nonneg (hneg.trans hc)
  · rw [Dec.val_neg_iff, hneg]
  · rw [Dec.val_pos_iff, hneg]

/-- Witness for `claim_C1_amended` at the concrete payment `"+86,962.00"`. -/
theorem claim_C1_witness :
    cleanAmountPure (some "+86,962.00") = some ⟨true, 8696200, 2⟩ ∧
    (codeIsCredit "+86,962.00" = true → Dec.val ⟨true, 8696200, 2⟩ ≤ 0) ∧
    Dec.val ⟨true, 8696200, 2⟩ < 0 := by
  have h : cleanAmountPure (some "+86,962.00") = some ⟨true, 8696200, 2⟩ := by
    decide
  have hm := claim_C1_amended "+86,962.00" ⟨true, 8696200, 2⟩ h
  exact ⟨h, hm.1, hm.2.2.1.mpr ⟨by decide, by decide⟩⟩

/-! ## Claim C10 -/

/-- Claim C10 is false as stated: `"-0"` has a leading minus and no credit
indicator but normalizes to `0`, which is not positive. -/
theorem claim_C10_counterexample :
    ("-0").data.head? = some '-' ∧
    claimCreditIndicator "-0" = false ∧
    cleanAmountPure (some "-0") = some ⟨false, 0, 0⟩ ∧
    Dec.val ⟨false, 0, 0⟩ = 0 := by
  refine ⟨by decide, by decide, by decide, ?_⟩
  rw [Dec.val_false]
  norm_num

/-- Claim C10 (amended): an input with a leading minus sign and no credit
indicator (indicator evaluated as the code does, on the trimmed
comma-stripped text) has the minus stripped with the other non-digit
characters, and the result - when numeric - is stored unsigned, hence
non-negative; an explicit negative sign never yields a negative result. -/
theorem claim_C10_amended (s : String) (d : Dec)
    (h1 : s.data.head? = some '-') (h2 : codeIsCredit s = false)
    (h : cleanAmountPure (some s) = some d) :
    d.neg = false ∧ 0 ≤ d.val := by
  have hneg := (cleanAmountPure_neg h).trans h2
  exact ⟨hneg, Dec.val_nonneg hneg⟩

/-- Witness for `claim_C10_amended` at the concrete input `"-500"`. -/
theorem claim_C10_witness :
    ("-500").data.head? = some '-' ∧ codeIsCredit "-500" = false ∧
    cleanAmountPure (some "-500") = some ⟨false, 500, 0⟩ ∧
    (Dec.neg ⟨false, 500, 0⟩ = false ∧ 0 ≤ Dec.val ⟨false, 500, 0⟩) :=
  ⟨by decide, by decide, by decide,
   claim_C10_amended "-500" ⟨false, 500, 0⟩ (by decide) (by decide) (by decide)⟩

/-! ## Claim C2, counterexample -/

/-- Claim C2 is false as stated: `"+1"` normalizes to `-1`, whose decimal
string form `"-1"` re-normalizes to `+1` - the minus sign is stripped, so
idempotence fails for every negative result. -/
theorem claim_C2_counterexample :
    cleanAmountPure (some "+1") = some ⟨true, 1, 0⟩ ∧
    decToString ⟨true, 1, 0⟩ = "-1" ∧
    cleanAmountPure (some "-1") = some ⟨false, 1, 0⟩ ∧
    Dec.val ⟨false, 1, 0⟩ ≠ Dec.val ⟨true, 1, 0⟩ := by
  refine ⟨by decide, by decide, by decide, ?_⟩
  rw [Dec.val_false, Dec.val_true]
  norm_num

/-! ## Claims C3, C4, C5: counterexamples -/

/-- Claim C3 is false as stated: `TX_DATE_RE` is applied with `re.match`,
which only anchors at the start, so the stored date of an accepted row can
strictly extend the `dd/dd/dddd` shape. -/
theorem claim_C3_counterexample :
    parseTablesEx [[[some "Date", some "Transaction Details", some "Amount"],
                    [some "08/10/2025X", some "SHOP", some "100"]]] =
      Except.ok [⟨"08/10/2025X", "SHOP", ⟨false, 100, 0⟩⟩] ∧
    txDateFull ("08/10/2025X").data = false :=
  ⟨by decide, by decide⟩

/-- Claim C4 is false as stated: the row with date cell `"01/01/2025x"`
fails the strict (whole-string) date pattern, so the claim requires it to be
rejected, but the code accepts it because `re.match` only checks a prefix. -/
theorem claim_C4_counterexample :
    claimRowRejected [some "01/01/2025x", some "SHOP", some "100"] = true ∧
    parseTransactionRowEx [some "01/01/2025x", some "SHOP", some "100"] =
      Except.ok (some ⟨"01/01/2025x", "SHOP", ⟨false, 100, 0⟩⟩) :=
  ⟨by decide, by decide⟩

/-- Claim C5 is false as stated: the middle cell `" "` is empty after
trimming, so the claim requires it to be excluded, but the code only skips
falsy cells before trimming - the cell survives as the empty string and the
merchant comes out `"A  B"` (two spaces), not `"A B"`. -/
theorem claim_C5_counterexample :
    parseTransactionRowEx
        [some "01/01/2025", some "A", some " ", some "B", some "100"] =
      Except.ok (some ⟨"01/01/2025", "A  B", ⟨false, 100, 0⟩⟩) ∧
    claimMerchantText [some "01/01/2025", some "A", some " ", some "B", some "100"] =
      ("A B").data ∧
    ("A  B").data ≠ ("A B").data :=
  ⟨by decide, by decide, by decide⟩

/-! ## Row-normalizer structure lemmas -/

lemma merchantParts_eq_filterMap (l : List (Option String)) :
    merchantParts l = l.filterMap (fun c =>
      match c with
      | none => none
      | some s =>
        if s.data = [] then none
        else if isJunkCell (stripL s.data) then none
        else some (stripL s.data)) := by
  induction l with
  | nil => rfl
  | cons c rest ih =>
    cases c with
    | none => simpa [merchantParts] using ih
    | some s =>
      by_cases h0 : s.data = []
      · simp [merchantParts, h0, ih]
      · by_cases hj : isJunkCell (stripL s.data)
        · simp [merchantParts, h0, hj, ih]
        · simp [merchantParts, h0, hj, ih]

lemma specMerchantText_eq (row : List (Option String)) :
    specMerchantText row = rowMerchant row := by
  unfold specMerchantText rowMerchant
  rw [merchantParts_eq_filterMap]

/-- Structure of every accepted row: the stored date starts with the
`dd/dd/dddd` shape and the stored merchant is the junk-filtered join. -/
lemma parseRow_ok_some {row : List (Option String)} {tx : Transaction}
    (h : parseTransactionRowEx row = Except.ok (some tx)) :
    txDatePre tx.date.data = true ∧
    tx.merchant = String.mk (rowMerchant row) := by
  unfold parseTransactionRowEx at h
  split at h
  · exact absurd (Except.ok.inj h) (by simp)
  · split at h
    · exact absurd (Except.ok.inj h) (by simp)
    · split at h
      · exact absurd h (by simp)
      · rename_i s0
        split at h
        · exact absurd (Except.ok.inj h) (by simp)
        · rename_i hdate
          split at h
          · exact absurd (Except.ok.inj h) (by simp)
          · split at h
            · exact absurd (Except.ok.inj h) (by simp)
            · cases Option.some.inj (Except.ok.inj h)
              refine ⟨?_, rfl⟩
              simpa using hdate

lemma parseRowsEx_ok {rows : List (List (Option String))} {txs : List Transaction}
    (h : parseRowsEx rows = Except.ok txs) :
    ∀ tx ∈ txs, txDatePre tx.date.data = true := by
  induction rows generalizing txs with
  | nil =>
    simp only [parseRowsEx] at h
    cases Except.ok.inj h
    simp
  | cons r rest ih =>
    simp only [parseRowsEx] at h
    split at h
    · exact absurd h (by simp)
    · exact ih h
    · rename_i tx0 heq
      split at h
      · exact absurd h (by simp)
      · rename_i txs2 heq2
        cases Except.ok.inj h
        intro tx htx
        rcases List.mem_cons.mp htx with rfl | hmem
        · exact (parseRow_ok_some heq).1
        · exact ih heq2 tx hmem

/-! ## Claim C3, amended theorem -/

/-- Claim C3 (amended): every transaction of the final result has a date
string that STARTS with the `dd/dd/dddd` shape (the `re.match` anchor), and
this is established at construction by the Row Normalizer. -/
theorem claim_C3_amended (tables : List (List (List (Option String))))
    (txs : List Transaction) (h : parseTablesEx tables = Except.ok txs) :
    ∀ tx ∈ txs, txDatePre tx.date.data = true := by
  induction tables generalizing txs with
  | nil =>
    simp only [parseTablesEx] at h
    cases Except.ok.inj h
    simp
  | cons t rest ih =>
    simp only [parseTablesEx] at h
    split at h
    · exact ih _ h
    · split at h
      · split at h
        · exact absurd h (by simp)
        · rename_i txs1 heq1
          split at h
          · exact absurd h (by simp)
          · rename_i txs2 heq2
            cases Except.ok.inj h
            intro tx htx
            rcases List.mem_append.mp htx with h1 | h2
            · exact parseRowsEx_ok heq1 tx h1
            · exact ih _ heq2 tx h2
      · exact ih _ h

/-- Witness for `claim_C3_amended` on a one-table, one-row document. -/
theorem claim_C3_witness :
    parseTablesEx [[[some "Date", some "Transaction Details", some "Amount"],
                    [some "08/10/2025", some "AMAZON PAY", some "1,234.56"]]] =
      Except.ok [⟨"08/10/2025", "AMAZON PAY", ⟨false, 123456, 2⟩⟩] ∧
    txDatePre ("08/10/2025").data = true := by
  refine ⟨by decide, ?_⟩
  exact claim_C3_amended
    [[[some "Date", some "Transaction Details", some "Amount"],
      [some "08/10/2025", some "AMAZON PAY", some "1,234.56"]]]
    [⟨"08/10/2025", "AMAZON PAY", ⟨false, 123456, 2⟩⟩] (by decide)
    ⟨"08/10/2025", "AMAZON PAY", ⟨false, 123456, 2⟩⟩ (by simp)

/-! ## Claim C5, amended theorem -/

/-- Claim C5 (amended): in every accepted row, the merchant is exactly the
join of the middle cells with single spaces after this filtering: cells that
are absent or the empty string are dropped; other cells are trimmed and
then dropped iff the trimmed text equals `EMI`/`EM` case-insensitively, is a
sign followed by digits, digits then whitespace then `pts`
(case-insensitive), or `USD`/`EUR`/`GBP` (case-insensitive) then whitespace
then a nonempty run of digits and dots; a whitespace-only cell is KEPT as an
empty string (contributing an extra space), and the final join is trimmed. -/
theorem claim_C5_amended (row : List (Option String)) (tx : Transaction)
    (h : parseTransactionRowEx row = Except.ok (some tx)) :
    tx.merchant = String.mk (specMerchantText row) := by
  rw [specMerchantText_eq]
  exact (parseRow_ok_some h).2

/-- Witness for `claim_C5_amended` at the Scenario-3 row. -/
theorem claim_C5_witness :
    parseTransactionRowEx
        [some "10/10/2025", some "STARBUCKS", some "EMI", some "USD 4.50",
         some "450 pts", some "C500.00"] =
      Except.ok (some ⟨"10/10/2025", "STARBUCKS", ⟨false, 50000, 2⟩⟩) ∧
    ("STARBUCKS" : String) =
      String.mk (specMerchantText
        [some "10/10/2025", some "STARBUCKS", some "EMI", some "USD 4.50",
         some "450 pts", some "C500.00"]) := by
  refine ⟨by decide, ?_⟩
  exact claim_C5_amended _ ⟨"10/10/2025", "STARBUCKS", ⟨false, 50000, 2⟩⟩ (by decide)

/-! ## Claim C4, amended theorem -/

/-- Claim C4 (amended): on every non-raising row, the Row Normalizer rejects
iff the row has fewer than 3 cells, or its first cell (after dropping a
`|`-suffix and trimming) fails to START with the strict date shape, or its
last cell fails amount normalization, or the filtered merchant text is empty
or starts with `total` case-insensitively. -/
theorem claim_C4_amended (row : List (Option String)) (r : Option Transaction)
    (h : parseTransactionRowEx row = Except.ok r) :
    (r = none ↔ specRowRejected row = true) := by
  unfold parseTransactionRowEx at h
  split at h
  · rename_i hlen
    cases Except.ok.inj h
    simp [specRowRejected, hlen]
  · rename_i hlen
    split at h
    · simp at hlen
    · split at h
      · exact absurd h (by simp)
      · rename_i s0
        split at h
        · rename_i hdate
          cases Except.ok.inj h
          simp only [specRowRejected]
          simp [hdate]
        · rename_i hdate
          split at h
          · rename_i hamt
            cases Except.ok.inj h
            simp only [specRowRejected]
            simp [hamt]
          · rename_i amt hamt
            split at h
            · rename_i hm
              cases Except.ok.inj h
              simp only [specRowRejected, specMerchantText_eq]
              simp only [Bool.or_eq_true, decide_eq_true_eq] at hm
              simp [List.isEmpty_iff]
              tauto
            · rename_i hm
              cases Except.ok.inj h
              have hdate2 : txDatePre (rowDateStr s0) = true := by simpa using hdate
              simp only [Bool.or_eq_true, decide_eq_true_eq, not_or,
                Bool.not_eq_true] at hm
              simp only [List.length_cons] at hlen
              simp only [specRowRejected, specMerchantText_eq]
              simp [hdate2, hamt, List.isEmpty_iff, hm]
              omega

/-! ## Claim C6: classifier equivalence

The code joins only TRUTHY header cells (dropping `None` and `""`), the
claim joins all non-absent cells.  The two joined texts differ only in runs
of extra separator spaces, so containment of the three space-free keywords
is unaffected.  The lemmas below prove exactly that. -/

lemma joinSp_cons2 (x y : List Char) (rest : List (List Char)) :
    joinSp (x :: y :: rest) = x ++ ' ' :: joinSp (y :: rest) := rfl

lemma containsL_nil_false {pat : List Char} (hne : pat ≠ []) :
    containsL pat [] = false := by
  cases pat with
  | nil => exact absurd rfl hne
  | cons p pt => rfl

lemma listPre_append_space {pat : List Char} (hs : ' ' ∉ pat) :
    ∀ a b : List Char, listPre pat (a ++ ' ' :: b) = listPre pat a := by
  induction pat with
  | nil => intro a b; simp [listPre]
  | cons p pt ih =>
    intro a b
    cases a with
    | nil =>
      have hp : ¬(p = ' ') := fun hc => hs (hc ▸ List.mem_cons_self p pt)
      simp [listPre, hp]
    | cons x a2 =>
      simp only [List.cons_append, listPre, List.append_eq]
      rw [ih (fun hm => hs (List.mem_cons_of_mem p hm)) a2 b]

lemma containsL_append_space {pat : List Char} (hs : ' ' ∉ pat)
    (hne : pat ≠ []) :
    ∀ a b : List Char,
      containsL pat (a ++ ' ' :: b) = (containsL pat a || containsL pat b) := by
  intro a b
  induction a with
  | nil =>
    obtain ⟨p, pt, rfl⟩ : ∃ p pt, pat = p :: pt := by
      cases pat with
      | nil => exact absurd rfl hne
      | cons p pt => exact ⟨p, pt, rfl⟩
    have hp : ¬(p = ' ') := fun hc => hs (hc ▸ List.mem_cons_self p pt)
    simp [containsL, listPre, hp]
  | cons x a2 ih =>
    simp only [List.cons_append, containsL, List.append_eq]
    rw [ih]
    have hx2 := listPre_append_space hs (x :: a2) b
    rw [List.cons_append] at hx2
    rw [hx2, Bool.or_assoc]

lemma containsL_joinSp_filter {pat : List Char} (hs : ' ' ∉ pat)
    (hne : pat ≠ []) (l : List (List Char)) :
    containsL pat (joinSp (l.filter (fun x => !x.isEmpty))) =
      containsL pat (joinSp l) := by
  induction l with
  | nil => rfl
  | cons x l2 ih =>
    rw [List.filter_cons]
    by_cases hx : x = []
    · subst hx
      rw [if_neg (by decide)]
      rw [ih]
      cases l2 with
      | nil => rfl
      | cons y rest =>
        rw [joinSp_cons2, List.nil_append]
        have h := containsL_append_space hs hne [] (joinSp (y :: rest))
        rw [List.nil_append] at h
        rw [h, containsL_nil_false hne, Bool.false_or]
    · rw [if_pos (by simp [List.isEmpty_iff, hx])]
      cases l2 with
      | nil => rfl
      | cons y rest =>
        rw [joinSp_cons2 x y rest, containsL_append_space hs hne]
        cases hf : (y :: rest).filter (fun x => !x.isEmpty) with
        | nil =>
          have hzero : containsL pat (joinSp (y :: rest)) = false := by
            rw [← ih, hf]
            exact containsL_nil_false hne
          show containsL pat x = (containsL pat x || containsL pat (joinSp (y :: rest)))
          rw [hzero, Bool.or_false]
        | cons z w =>
          rw [joinSp_cons2 x z w, containsL_append_space hs hne, ← hf, ih]

lemma lowerL_joinSp (l : List (List Char)) :
    lowerL (joinSp l) = joinSp (l.map lowerL) := by
  induction l with
  | nil => rfl
  | cons x l2 ih =>
    cases l2 with
    | nil => rfl
    | cons y rest =>
      rw [joinSp_cons2, List.map_cons, List.map_cons,
          joinSp_cons2 (lowerL x) (lowerL y) (rest.map lowerL),
          ← List.map_cons lowerL y rest, ← ih]
      have hsp : Char.toLower ' ' = ' ' := rfl
      simp [lowerL, hsp]

lemma lowerL_isEmpty (x : List Char) : (lowerL x).isEmpty = x.isEmpty := by
  cases x <;> rfl

lemma truthyCells_eq (header : List (Option String)) :
    truthyCells header = (presentCells header).filter (fun x => !x.isEmpty) := by
  unfold truthyCells presentCells
  induction header with
  | nil => rfl
  | cons c rest ih =>
    cases c with
    | none => simpa [List.filterMap_cons] using ih
    | some s =>
      cases hd : s.data with
      | nil => simp [List.filterMap_cons, hd, ih]
      | cons a as => simp [List.filterMap_cons, hd, ih, List.filter_cons]

lemma filter_lowerL_comm (l : List (List Char)) :
    (l.map lowerL).filter (fun x => !x.isEmpty) =
      (l.filter (fun x => !x.isEmpty)).map lowerL := by
  induction l with
  | nil => rfl
  | cons x rest ih =>
    simp only [List.map_cons, List.filter, lowerL_isEmpty]
    cases hx : !x.isEmpty <;> simp [ih]

/-- Claim C6: the Table Classifier returns true iff the case-folded join of
the non-absent header cells contains `date`, `transaction` and `amount` as
substrings.  (The code joins only truthy cells, additionally dropping empty
strings, but that cannot change containment of space-free keywords.) -/
theorem claim_C6 (header : List (Option String)) :
    isTransactionTable header = claimLedgerHeader header := by
  cases header with
  | nil => decide
  | cons c rest =>
    simp only [isTransactionTable, claimLedgerHeader]
    rw [truthyCells_eq, lowerL_joinSp, lowerL_joinSp, ← filter_lowerL_comm]
    rw [containsL_joinSp_filter (by decide) (by decide),
        containsL_joinSp_filter (by decide) (by decide),
        containsL_joinSp_filter (by decide) (by decide)]

/-! ## Claim C8 -/

/-- Claim C8: Layout A (`TOTAL_LIMIT_RE_A`) is tried before Layout B and
wins outright when it matches - the extracted limit is then a function of
A's capture alone, so B is never attempted; any captured limit string is
passed through the Amount Normalizer and its absolute value stored, making
every present credit limit non-negative; if neither layout matches, the
field is absent and nothing is raised. -/
theorem claim_C8 (text : List Char) :
    (∀ s, searchA text = some s → extractTotalLimit text = limitFromCapture s) ∧
    (∀ v, extractTotalLimit text = some v → 0 ≤ v) ∧
    (searchA text = none → searchB text = none → extractTotalLimit text = none) := by
  refine ⟨?_, ?_, ?_⟩
  · intro s hs
    unfold extractTotalLimit
    rw [hs]
  · intro v hv
    unfold extractTotalLimit at hv
    split at hv
    · exact absurd hv (by simp)
    · unfold limitFromCapture at hv
      split at hv
      · exact absurd hv (by simp)
      · split at hv
        · exact absurd hv (by simp)
        · rename_i d hd
          cases Option.some.inj hv
          exact abs_nonneg d.val
  · intro hA hB
    unfold extractTotalLimit
    rw [hA, hB]

/-- Witness for `claim_C8` at the Scenario-4 first-page text. -/
theorem claim_C8_witness :
    searchA ("TOTAL CREDIT LIMIT\n(Including Cash) AVAILABLE CREDIT LIMIT\nC3,00,000").data =
      some ("3,00,000").data ∧
    extractTotalLimit
        ("TOTAL CREDIT LIMIT\n(Including Cash) AVAILABLE CREDIT LIMIT\nC3,00,000").data =
      some |Dec.val ⟨false, 300000, 0⟩| ∧
    |Dec.val ⟨false, 300000, 0⟩| = (300000 : ℚ) := by
  have hA : searchA
      ("TOTAL CREDIT LIMIT\n(Including Cash) AVAILABLE CREDIT LIMIT\nC3,00,000").data =
      some ("3,00,000").data := by decide
  have h1 := (claim_C8
    ("TOTAL CREDIT LIMIT\n(Including Cash) AVAILABLE CREDIT LIMIT\nC3,00,000").data).1
    _ hA
  refine ⟨hA, ?_, ?_⟩
  · rw [h1]
    have hc : cleanAmountPure (some (String.mk ("3,00,000").data)) =
        some ⟨false, 300000, 0⟩ := by decide
    unfold limitFromCapture
    rw [if_neg (by decide), hc]
  · rw [Dec.val_abs]
    norm_num

/-! ## Claim C2: renormalizing a rendered `Dec`

The development below computes `_clean_amount` symbolically on the decimal
string form of an arbitrary result: the rendered string has no whitespace,
no commas, no `c` and no leading `+`, so stripping and the credit test are
inert, the sign character is removed by the digit/dot filter, and the digit
round-trip returns the original coefficient and exponent. -/

lemma digitChar_mem {m : Nat} (h : m < 10) : Nat.digitChar m ∈ digitChars := by
  interval_cases m <;> decide

lemma digitChar_toNat {m : Nat} (h : m < 10) :
    (Nat.digitChar m).toNat - 48 = m := by
  interval_cases m <;> decide

lemma digit_isDigit {c : Char} (h : c ∈ digitChars) : c.isDigit = true := by
  fin_cases h <;> decide

lemma digit_ne_dot {c : Char} (h : c ∈ digitChars) : c ≠ '.' := by
  fin_cases h <;> decide

lemma natToDigitsFuel_mem :
    ∀ fuel n c, c ∈ natToDigitsFuel fuel n → c ∈ digitChars := by
  intro fuel
  induction fuel with
  | zero => intro n c hc; simp [natToDigitsFuel] at hc
  | succ f ih =>
    intro n c hc
    by_cases hn : n < 10
    · rw [natToDigitsFuel, if_pos hn] at hc
      simp only [List.mem_singleton] at hc
      subst hc
      exact digitChar_mem hn
    · rw [natToDigitsFuel, if_neg hn] at hc
      rcases List.mem_append.mp hc with h1 | h2
      · exact ih _ _ h1
      · simp only [List.mem_singleton] at h2
        subst h2
        exact digitChar_mem (Nat.mod_lt n (by norm_num))

lemma natToDigits_mem {n : Nat} {c : Char} (hc : c ∈ natToDigits n) :
    c ∈ digitChars :=
  natToDigitsFuel_mem _ _ _ hc

lemma natToDigitsFuel_ne_nil (f n : Nat) : natToDigitsFuel (f + 1) n ≠ [] := by
  rw [natToDigitsFuel]
  by_cases hn : n < 10
  · rw [if_pos hn]; simp
  · rw [if_neg hn]; simp

lemma natToDigits_ne_nil (n : Nat) : natToDigits n ≠ [] :=
  natToDigitsFuel_ne_nil n n

lemma natOfDigits_append_singleton (xs : List Char) (c : Char) :
    natOfDigits (xs ++ [c]) = 10 * natOfDigits xs + (c.toNat - 48) := by
  simp [natOfDigits, List.foldl_append]

lemma natOfDigits_natToDigitsFuel :
    ∀ fuel n, n < 10 ^ fuel → natOfDigits (natToDigitsFuel fuel n) = n := by
  intro fuel
  induction fuel with
  | zero =>
    intro n hn
    interval_cases n
    rfl
  | succ f ih =>
    intro n hn
    by_cases h10 : n < 10
    · rw [natToDigitsFuel, if_pos h10]
      have := digitChar_toNat h10
      simp [natOfDigits]
      omega
    · rw [natToDigitsFuel, if_neg h10, natOfDigits_append_singleton]
      have hdiv : n / 10 < 10 ^ f := by
        rw [Nat.div_lt_iff_lt_mul (by norm_num : (0 : Nat) < 10)]
        calc n < 10 ^ (f + 1) := hn
        _ = 10 ^ f * 10 := by rw [pow_succ]
      rw [ih _ hdiv, digitChar_toNat (Nat.mod_lt n (by norm_num))]
      omega

lemma natOfDigits_natToDigits (n : Nat) : natOfDigits (natToDigits n) = n := by
  apply natOfDigits_natToDigitsFuel
  calc n < 10 ^ n := Nat.lt_pow_self (by norm_num) n
  _ ≤ 10 ^ (n + 1) := Nat.pow_le_pow_right (by norm_num) (Nat.le_succ n)

lemma natOfDigits_replicate_zero (k : Nat) (ds : List Char) :
    natOfDigits (List.replicate k '0' ++ ds) = natOfDigits ds := by
  have hz : ∀ j, List.foldl (fun a c => 10 * a + (c.toNat - 48)) 0
      (List.replicate j '0') = 0 := by
    intro j
    induction j with
    | zero => rfl
    | succ j ih => simpa [List.replicate_succ] using ih
  simp [natOfDigits, List.foldl_append, hz]

lemma decDigits_mem {d : Dec} {c : Char} (hc : c ∈ decDigits d) :
    c ∈ digitChars := by
  rcases List.mem_append.mp hc with h1 | h2
  · rw [List.eq_of_mem_replicate h1]
    decide
  · exact natToDigits_mem h2

lemma decDigits_natOfDigits (d : Dec) :
    natOfDigits (decDigits d) = d.coeff := by
  unfold decDigits
  rw [natOfDigits_replicate_zero, natOfDigits_natToDigits]

lemma decDigits_length (d : Dec) : d.exp + 1 ≤ (decDigits d).length := by
  unfold decDigits
  rw [List.length_append, List.length_replicate]
  have h1 : 1 ≤ (natToDigits d.coeff).length := by
    cases hT : natToDigits d.coeff with
    | nil => exact absurd hT (natToDigits_ne_nil d.coeff)
    | cons a as => simp
  omega

lemma decDigits_ne_nil (d : Dec) : decDigits d ≠ [] := by
  intro hc
  have h := decDigits_length d
  rw [hc] at h
  simp at h

lemma dropWhile_append_all {p : Char → Bool} {a b : List Char}
    (h : ∀ x ∈ a, p x = true) : (a ++ b).dropWhile p = b.dropWhile p := by
  induction a with
  | nil => rfl
  | cons c t ih =>
    rw [List.cons_append, List.dropWhile_cons,
        if_pos (h c (List.mem_cons_self c t))]
    exact ih (fun x hx => h x (List.mem_cons_of_mem c hx))

lemma dropWhile_eq_self_of {l : List Char} {p : Char → Bool}
    (h : ∀ c ∈ l, p c = false) : l.dropWhile p = l := by
  cases l with
  | nil => rfl
  | cons c t =>
    rw [List.dropWhile_cons, if_neg]
    simp [h c (List.mem_cons_self c t)]

lemma stripL_eq_self {l : List Char} (h : ∀ c ∈ l, pyIsSpace c = false) :
    stripL l = l := by
  unfold stripL
  rw [dropWhile_eq_self_of h,
      dropWhile_eq_self_of (fun c hc => h c (List.mem_reverse.mp hc))]
  exact List.reverse_reverse l

/-- `Decimal` on an all-digit nonempty string parses with exponent 0. -/
lemma pyDecimal_digits {ds : List Char} (hmem : ∀ c ∈ ds, c ∈ digitChars)
    (hne : ds ≠ []) :
    pyDecimal ds = Except.ok (natOfDigits ds, 0) := by
  have hall : ds.all (fun c => c.isDigit || c = '.') = true :=
    List.all_eq_true.mpr (fun c hc => by simp [digit_isDigit (hmem c hc)])
  have hdot : '.' ∉ ds := fun hd => digit_ne_dot (hmem _ hd) rfl
  have hcount : ds.count '.' = 0 := List.count_eq_zero.mpr hdot
  have hany : ds.any Char.isDigit = true := by
    obtain ⟨x, hx⟩ := List.exists_mem_of_ne_nil ds hne
    exact List.any_eq_true.mpr ⟨x, hx, digit_isDigit (hmem x hx)⟩
  have hfil : ds.filter Char.isDigit = ds :=
    List.filter_eq_self.mpr (fun c hc => digit_isDigit (hmem c hc))
  have hdw : ds.dropWhile (fun c => c ≠ '.') = [] := by
    rw [List.dropWhile_eq_nil_iff]
    intro x hx
    simp [digit_ne_dot (hmem x hx)]
  unfold pyDecimal
  rw [if_pos]
  · rw [hfil, hdw]
    rfl
  · rw [hall, hany, hcount]
    decide

/-- `Decimal` on digits-dot-digits parses the concatenated digits with the
fractional length as exponent. -/
lemma pyDecimal_dotted {ds1 ds2 : List Char}
    (h1 : ∀ c ∈ ds1, c ∈ digitChars) (h2 : ∀ c ∈ ds2, c ∈ digitChars)
    (hne : ds1 ≠ []) :
    pyDecimal (ds1 ++ '.' :: ds2) =
      Except.ok (natOfDigits (ds1 ++ ds2), ds2.length) := by
  have hall : (ds1 ++ '.' :: ds2).all (fun c => c.isDigit || c = '.') = true := by
    apply List.all_eq_true.mpr
    intro c hc
    rcases List.mem_append.mp hc with ha | hb
    · simp [digit_isDigit (h1 c ha)]
    · rcases List.mem_cons.mp hb with rfl | hb2
      · simp
      · simp [digit_isDigit (h2 c hb2)]
  have hc1 : ds1.count '.' = 0 :=
    List.count_eq_zero.mpr (fun hd => digit_ne_dot (h1 _ hd) rfl)
  have hc2 : ds2.count '.' = 0 :=
    List.count_eq_zero.mpr (fun hd => digit_ne_dot (h2 _ hd) rfl)
  have hcount : (ds1 ++ '.' :: ds2).count '.' = 1 := by
    rw [List.count_append, hc1, List.count_cons_self, hc2]
  have hany : (ds1 ++ '.' :: ds2).any Char.isDigit = true := by
    obtain ⟨x, hx⟩ := List.exists_mem_of_ne_nil ds1 hne
    exact List.any_eq_true.mpr
      ⟨x, List.mem_append_left _ hx, digit_isDigit (h1 x hx)⟩
  have hfil : (ds1 ++ '.' :: ds2).filter Char.isDigit = ds1 ++ ds2 := by
    rw [List.filter_append, List.filter_cons]
    rw [List.filter_eq_self.mpr (fun c hc => digit_isDigit (h1 c hc)),
        List.filter_eq_self.mpr (fun c hc => digit_isDigit (h2 c hc))]
    rfl
  have hdw : (ds1 ++ '.' :: ds2).dropWhile (fun c => c ≠ '.') = '.' :: ds2 := by
    rw [dropWhile_append_all (fun x hx => by simp [digit_ne_dot (h1 x hx)])]
    rw [List.dropWhile_cons, if_neg (by simp)]
  unfold pyDecimal
  rw [if_pos]
  · rw [hfil, hdw]
    simp
  · rw [hall, hany, hcount]
    decide

lemma decCore_mem {d : Dec} {c : Char} (hc : c ∈ decCore d) :
    c ∈ '.' :: digitChars := by
  unfold decCore at hc
  by_cases he : d.exp = 0
  · rw [if_pos he] at hc
    exact List.mem_cons_of_mem _ (decDigits_mem hc)
  · rw [if_neg he] at hc
    rcases List.mem_append.mp hc with h1 | h2
    · exact List.mem_cons_of_mem _ (decDigits_mem (List.take_subset _ _ h1))
    · rcases List.mem_cons.mp h2 with rfl | h3
      · exact List.mem_cons_self _ _
      · exact List.mem_cons_of_mem _ (decDigits_mem (List.drop_subset _ _ h3))

lemma decCore_ne_nil (d : Dec) : decCore d ≠ [] := by
  unfold decCore
  by_cases he : d.exp = 0
  · rw [if_pos he]
    exact decDigits_ne_nil d
  · rw [if_neg he]
    intro hc
    exact absurd (List.append_eq_nil.mp hc).2 (by simp)

lemma take_decDigits_ne_nil {d : Dec} :
    (decDigits d).take ((decDigits d).length - d.exp) ≠ [] := by
  have hlen := decDigits_length d
  intro hc
  rcases List.take_eq_nil_iff.mp hc with h | h
  all_goals first
  | omega
  | exact absurd h (decDigits_ne_nil d)

lemma pyDecimal_decCore (d : Dec) :
    pyDecimal (decCore d) = Except.ok (d.coeff, d.exp) := by
  unfold decCore
  by_cases he : d.exp = 0
  · rw [if_pos he,
        pyDecimal_digits (fun c hc => decDigits_mem hc) (decDigits_ne_nil d),
        decDigits_natOfDigits, he]
  · have hlen := decDigits_length d
    have hdrop : ((decDigits d).drop ((decDigits d).length - d.exp)).length = d.exp := by
      rw [List.length_drop]
      omega
    rw [if_neg he,
        pyDecimal_dotted (fun c hc => decDigits_mem (List.take_subset _ _ hc))
          (fun c hc => decDigits_mem (List.drop_subset _ _ hc))
          take_decDigits_ne_nil,
        List.take_append_drop, decDigits_natOfDigits, hdrop]

lemma decChar_not_space {c : Char} (h : c ∈ '-' :: '.' :: digitChars) :
    pyIsSpace c = false := by
  fin_cases h <;> decide

lemma decChar_ne_comma {c : Char} (h : c ∈ '-' :: '.' :: digitChars) :
    c ≠ ',' := by
  fin_cases h <;> decide

lemma decChar_ne_plus {c : Char} (h : c ∈ '-' :: '.' :: digitChars) :
    c ≠ '+' := by
  fin_cases h <;> decide

lemma decChar_toLower_ne_c {c : Char} (h : c ∈ '-' :: '.' :: digitChars) :
    Char.toLower c ≠ 'c' := by
  fin_cases h <;> decide

lemma decChar_pred {c : Char} (h : c ∈ '.' :: digitChars) :
    (c.isDigit || decide (c = '.')) = true := by
  fin_cases h <;> decide

lemma headIsPlus_eq_false {l : List Char} (h : ∀ c ∈ l, c ≠ '+') :
    headIsPlus l = false := by
  unfold headIsPlus
  split
  · rename_i t
    exact absurd rfl (h '+' (List.mem_cons_self _ _))
  · rfl

lemma containsL_eq_false_of_head_not_mem {p : Char} {pt l : List Char}
    (h : p ∉ l) : containsL (p :: pt) l = false := by
  induction l with
  | nil => rfl
  | cons x t ih =>
    have hpx : ¬(p = x) := fun hc => h (by rw [hc]; exact List.mem_cons_self x t)
    simp only [containsL, listPre]
    rw [ih (fun hm => h (List.mem_cons_of_mem x hm))]
    simp [hpx]

lemma decStr_chars {v : Dec} :
    ∀ c ∈ (decToString v).data, c ∈ '-' :: '.' :: digitChars := by
  intro c hc
  have hdata : (decToString v).data = (if v.neg then ['-'] else []) ++ decCore v := rfl
  rw [hdata] at hc
  rcases List.mem_append.mp hc with h1 | h2
  · cases hv : v.neg
    · simp [hv] at h1
    · simp only [hv, if_true, List.mem_singleton] at h1
      subst h1
      exact List.mem_cons_self _ _
  · exact List.mem_cons_of_mem _ (decCore_mem h2)

/-- Re-normalizing the decimal string form of any result gives the unsigned
value with the same coefficient and exponent. -/
lemma renorm_decToString (v : Dec) :
    cleanAmountPure (some (decToString v)) = some ⟨false, v.coeff, v.exp⟩ := by
  have hmemL := @decStr_chars v
  have hLne : (decToString v).data ≠ [] := by
    have hdata : (decToString v).data = (if v.neg then ['-'] else []) ++ decCore v := rfl
    rw [hdata]
    intro hc
    exact decCore_ne_nil v (List.append_eq_nil.mp hc).2
  have hstrip : stripL (decToString v).data = (decToString v).data :=
    stripL_eq_self (fun c hc => decChar_not_space (hmemL c hc))
  have hcommas : pyRemoveCommas (decToString v).data = (decToString v).data :=
    List.filter_eq_self.mpr (fun c hc => by simp [decChar_ne_comma (hmemL c hc)])
  have hcr : containsL ['c', 'r'] (lowerL (decToString v).data) = false := by
    apply containsL_eq_false_of_head_not_mem
    intro hc
    rcases List.mem_map.mp hc with ⟨x, hx, hxe⟩
    exact decChar_toLower_ne_c (hmemL x hx) hxe
  have hplus : headIsPlus (decToString v).data = false :=
    headIsPlus_eq_false (fun c hc => decChar_ne_plus (hmemL c hc))
  have hfilter : (decToString v).data.filter (fun c => c.isDigit || c = '.') =
      decCore v := by
    have hdata : (decToString v).data = (if v.neg then ['-'] else []) ++ decCore v := rfl
    rw [hdata, List.filter_append]
    have hsgn : (if v.neg then ['-'] else ([] : List Char)).filter
        (fun c => c.isDigit || c = '.') = [] := by
      cases hv : v.neg <;> decide
    have hcore : (decCore v).filter (fun c => c.isDigit || c = '.') = decCore v :=
      List.filter_eq_self.mpr (fun c hc => decChar_pred (decCore_mem hc))
    rw [hsgn, hcore, List.nil_append]
  have hex : cleanAmountEx (some (decToString v)) =
      Except.ok (some ⟨false, v.coeff, v.exp⟩) := by
    rw [cleanAmountEx_some, if_neg hLne]
    show pyCatchAmount (cleanAmountBody
        (containsL ['c', 'r'] (lowerL (pyRemoveCommas (stripL (decToString v).data))) ||
          headIsPlus (pyRemoveCommas (stripL (decToString v).data)))
        ((pyRemoveCommas (stripL (decToString v).data)).filter
          (fun c => c.isDigit || c = '.'))) = _
    rw [hstrip, hcommas, hcr, hplus, hfilter]
    unfold cleanAmountBody
    rw [if_neg (decCore_ne_nil v), pyDecimal_decCore]
    rfl
  unfold cleanAmountPure
  rw [hex]

/-- Claim C2 (amended): re-normalizing the decimal string form of a result
`v` returns a value of the same magnitude `|v|`; it equals `v` (sign
included) exactly when `v` is non-negative, since an explicit minus sign is
stripped by the normalizer. -/
theorem claim_C2_amended (s : String) (v : Dec)
    (h : cleanAmountPure (some s) = some v) :
    ∃ w, cleanAmountPure (some (decToString v)) = some w ∧
      w.val = |v.val| ∧ (w.val = v.val ↔ 0 ≤ v.val) := by
  refine ⟨⟨false, v.coeff, v.exp⟩, renorm_decToString v, ?_, ?_⟩
  · rw [Dec.val_false, Dec.val_abs]
  · have habs : Dec.val ⟨false, v.coeff, v.exp⟩ = |v.val| := by
      rw [Dec.val_false, Dec.val_abs]
    rw [habs]
    exact abs_eq_self

/-- Witness for `claim_C2_amended` at the concrete input `"1,234.56"`. -/
theorem claim_C2_witness :
    cleanAmountPure (some "1,234.56") = some ⟨false, 123456, 2⟩ ∧
    (∃ w, cleanAmountPure (some (decToString ⟨false, 123456, 2⟩)) = some w ∧
      w.val = |Dec.val ⟨false, 123456, 2⟩| ∧
      (w.val = Dec.val ⟨false, 123456, 2⟩ ↔ 0 ≤ Dec.val ⟨false, 123456, 2⟩)) :=
  ⟨by decide, claim_C2_amended "1,234.56" ⟨false, 123456, 2⟩ (by decide)⟩

/-- Witness for `claim_C4_amended` at a concrete accepted row. -/
theorem claim_C4_witness :
    parseTransactionRowEx [some "08/10/2025", some "AMAZON PAY", some "1,234.56"] =
      Except.ok (some ⟨"08/10/2025", "AMAZON PAY", ⟨false, 123456, 2⟩⟩) ∧
    ((some (⟨"08/10/2025", "AMAZON PAY", ⟨false, 123456, 2⟩⟩ : Transaction) = none) ↔
      specRowRejected [some "08/10/2025", some "AMAZON PAY", some "1,234.56"] = true) := by
  refine ⟨by decide, ?_⟩
  exact claim_C4_amended _ _ (by decide)

end Zuno
